import Mathlib

/-!
Verification of the handshake key lifecycle and outbound staging buffer of
`examples/server_base.h` (ngtcp2 server example base).

The `Buffer` accessors (`size`, `left`, `wpos`, `rpos`, `push`, `reset`) are
inline in the header and embedded directly from the source.  The `Buffer`
constructors and the `HandlerBase` member functions (`on_rx_key`, `on_tx_key`,
`write_server_handshake`, `set_tls_alert`) are only declared in the header;
their bodies live outside the provided sources, so they are modelled from the
specification, as marked on each definition.

Pointers `begin` and `tail` into the backing storage `buf` are embedded as
natural-number offsets from the start of the storage.
-/

namespace ServerBase

/-- Embedding of `struct Buffer` from `server_base.h`.  The C++ members are
`std::vector<uint8_t> buf`, `uint8_t *begin`, `uint8_t *tail`; the two pointers
become offsets into `buf`. -/
structure Buffer where
  buf : List UInt8
  bufBegin : Nat
  tail : Nat
deriving Repr, DecidableEq

namespace Buffer

/-- Source: `size_t size() const { return tail - begin; }` -/
def size (b : Buffer) : Nat := b.tail - b.bufBegin

/-- Source: `size_t left() const { return buf.data() + buf.size() - tail; }` -/
def left (b : Buffer) : Nat := b.buf.length - b.tail

/-- Source: `uint8_t *const wpos() { return tail; }` (write cursor offset). -/
def wpos (b : Buffer) : Nat := b.tail

/-- Source: `const uint8_t *rpos() const { return begin; }` (read cursor
offset). -/
def rpos (b : Buffer) : Nat := b.bufBegin

/-- The `size()` bytes readable at `rpos()`. -/
def rposBytes (b : Buffer) : List UInt8 := (b.buf.drop b.rpos).take b.size

/-- Source: `void push(size_t len) { tail += len; }` -/
def push (b : Buffer) (len : Nat) : Buffer := { b with tail := b.tail + len }

/-- Source: `void reset() { tail = begin; }` -/
def reset (b : Buffer) : Buffer := { b with tail := b.bufBegin }

/-- Modelled from the spec: the body of `Buffer::Buffer(const uint8_t *data,
size_t datalen)` (CreateFromSpan) is not under the provided sources.  The spec
says it allocates owned storage of exactly `length` bytes, copies `data` in,
and sets `begin = 0`, `tail = length`. -/
def createFromSpan (data : List UInt8) : Buffer :=
  { buf := data, bufBegin := 0, tail := data.length }

/-- Modelled from the spec: the body of `explicit Buffer::Buffer(size_t
datalen)` (CreateEmpty) is not under the provided sources.  The spec says it
allocates owned storage of `capacity` bytes with `begin = tail = 0`. -/
def createEmpty (capacity : Nat) : Buffer :=
  { buf := List.replicate capacity 0, bufBegin := 0, tail := 0 }

/-- Well-formedness of a buffer whose cursors point into its own storage:
`begin ≤ tail` and the write cursor has not passed the physical end of the
storage. -/
def wf (b : Buffer) : Prop := b.bufBegin ≤ b.tail ∧ b.tail ≤ b.buf.length

instance (b : Buffer) : Decidable b.wf := by
  unfold wf; infer_instance

end Buffer

/-- The three crypto levels relevant to the install-order state machine, in
their fixed order Initial, Handshake, Application (`ngtcp2_crypto_level`; the
0-RTT early level is not driven through these handlers in this header). -/
inductive CryptoLevel where
  | initial
  | handshake
  | application
deriving Repr, DecidableEq

/-- Embedding of `QUICError` as observed through `last_error_`: no error, a
transport error code, or a recorded TLS crypto alert. -/
inductive QUICError where
  | noErr
  | transportError (code : Nat)
  | cryptoAlert (code : Nat)
deriving Repr, DecidableEq

/-- Failure conditions of the handler operations, from the error taxonomy of
the spec. -/
inductive HandlerError where
  | outOfOrderKeyInstall
  | invalidKeyLength
  | handlerClosed
deriving Repr, DecidableEq

/-- Per-direction record of which crypto levels have had keys installed. -/
structure KeyRecord where
  initialK : Bool
  handshakeK : Bool
  applicationK : Bool
deriving Repr, DecidableEq

namespace KeyRecord

/-- No keys installed yet. -/
def empty : KeyRecord := ⟨false, false, false⟩

/-- Whether keys at `level` have been installed in this direction. -/
def installed (r : KeyRecord) : CryptoLevel → Bool
  | .initial => r.initialK
  | .handshake => r.handshakeK
  | .application => r.applicationK

/-- Whether `level` is the next not-yet-installed level in the fixed order
Initial, Handshake, Application. -/
def isNext (r : KeyRecord) : CryptoLevel → Bool
  | .initial => !r.initialK
  | .handshake => r.initialK && !r.handshakeK
  | .application => r.initialK && r.handshakeK && !r.applicationK

/-- Mark keys at `level` installed. -/
def install (r : KeyRecord) : CryptoLevel → KeyRecord
  | .initial => { r with initialK := true }
  | .handshake => { r with handshakeK := true }
  | .application => { r with applicationK := true }

/-- The installed set is a down-closed segment of the order Initial,
Handshake, Application. -/
def downClosed (r : KeyRecord) : Prop :=
  (r.handshakeK = true → r.initialK = true) ∧
  (r.applicationK = true → r.handshakeK = true)

instance (r : KeyRecord) : Decidable r.downClosed := by
  unfold downClosed; infer_instance

end KeyRecord

/-- Modelled from the spec: the state of a `HandlerBase` as far as the key
lifecycle, alert recording, staging buffers and the one-shot
application-transmit-key callback are concerned.  The member function bodies
are not under the provided sources; only the declarations and protected
members (`last_error_`, `application_tx_key_cb_`) are.  `appCbFires` counts
invocations of the registered callback; `appCbArmed` is the one-shot trigger,
cleared after firing.  `expectedSecretLen` is the key size the TLS collaborator
expects, surfaced as a length check on install. -/
structure Handler where
  rxKeys : KeyRecord
  txKeys : KeyRecord
  lastError : QUICError
  alertRaised : Bool
  appCbArmed : Bool
  appCbFires : Nat
  staged : CryptoLevel → List UInt8
  expectedSecretLen : Nat

namespace Handler

/-- A freshly constructed handler: no keys installed, no error, active, with
the application-key callback registered and not yet fired, empty staging
buffers. -/
def mk0 (slen : Nat) : Handler :=
  { rxKeys := .empty, txKeys := .empty, lastError := .noErr,
    alertRaised := false, appCbArmed := true, appCbFires := 0,
    staged := fun _ => [], expectedSecretLen := slen }

/-- Modelled from the spec: `HandlerBase::on_rx_key` (installReceiveKey).
Preconditions checked in order: the handler is active (no fatal alert
recorded), `level` is the next not-yet-installed receive level, and the secret
length matches the expected key size.  On success it records receive keys
available at `level`. -/
def on_rx_key (h : Handler) (level : CryptoLevel) (secretlen : Nat) :
    Handler × Option HandlerError :=
  if h.alertRaised then (h, some .handlerClosed)
  else if !h.rxKeys.isNext level then (h, some .outOfOrderKeyInstall)
  else if secretlen ≠ h.expectedSecretLen then (h, some .invalidKeyLength)
  else ({ h with rxKeys := h.rxKeys.install level }, none)

/-- Modelled from the spec: `HandlerBase::on_tx_key` (installTransmitKey),
symmetric to `on_rx_key` for the transmit direction.  When `level` is
Application and installation succeeds, the registered application-key-ready
callback fires if still armed, and the trigger is cleared so it cannot
refire. -/
def on_tx_key (h : Handler) (level : CryptoLevel) (secretlen : Nat) :
    Handler × Option HandlerError :=
  if h.alertRaised then (h, some .handlerClosed)
  else if !h.txKeys.isNext level then (h, some .outOfOrderKeyInstall)
  else if secretlen ≠ h.expectedSecretLen then (h, some .invalidKeyLength)
  else if level = .application && h.appCbArmed then
    ({ h with txKeys := h.txKeys.install level,
              appCbFires := h.appCbFires + 1, appCbArmed := false }, none)
  else ({ h with txKeys := h.txKeys.install level }, none)

/-- Modelled from the spec: `HandlerBase::write_server_handshake`
(stageHandshakeData) appends the given bytes to the staging buffer for
`crypto_level`; after a fatal alert the call is rejected with
`HandlerClosed`. -/
def write_server_handshake (h : Handler) (level : CryptoLevel)
    (data : List UInt8) : Handler × Option HandlerError :=
  if h.alertRaised then (h, some .handlerClosed)
  else
    ({ h with staged := fun l =>
        if l = level then h.staged l ++ data else h.staged l }, none)

/-- Modelled from the spec: `HandlerBase::set_tls_alert` records
`CryptoAlert(alert)` as the last error and transitions the handler to the
terminal `AlertRaised` state. -/
def set_tls_alert (h : Handler) (alert : Nat) : Handler :=
  { h with lastError := .cryptoAlert alert, alertRaised := true }

/-- The operations an external collaborator can drive the handler with. -/
inductive HOp where
  | rxKey (level : CryptoLevel) (secretlen : Nat)
  | txKey (level : CryptoLevel) (secretlen : Nat)
  | stage (level : CryptoLevel) (data : List UInt8)
  | alert (code : Nat)

/-- One collaborator call, keeping only the resulting state. -/
def step (h : Handler) : HOp → Handler
  | .rxKey level slen => (h.on_rx_key level slen).1
  | .txKey level slen => (h.on_tx_key level slen).1
  | .stage level data => (h.write_server_handshake level data).1
  | .alert code => h.set_tls_alert code

/-- Run a sequence of collaborator calls. -/
def run (h : Handler) (ops : List HOp) : Handler := ops.foldl step h

end Handler

end ServerBase

namespace ServerBase

/-- C5: `CreateEmpty(capacity)` yields `size() == 0` and `remaining() ==
capacity`; under the precondition `n ≤ remaining()`, `advance(n)` increases
`size()` by `n` and decreases `remaining()` by `n` — concretely,
`CreateEmpty(16)` then `advance(10)` gives `size() == 10` and
`remaining() == 6` — and `rewind()` returns `size()` to 0 without changing the
capacity. -/
theorem createEmpty_advance_rewind :
    (∀ capacity : Nat, (Buffer.createEmpty capacity).size = 0 ∧
      (Buffer.createEmpty capacity).left = capacity) ∧
    (∀ (b : Buffer) (n : Nat), b.wf → n ≤ b.left →
      (b.push n).size = b.size + n ∧ (b.push n).left = b.left - n) ∧
    ((Buffer.createEmpty 16).push 10).size = 10 ∧
    ((Buffer.createEmpty 16).push 10).left = 6 ∧
    (∀ b : Buffer, b.reset.size = 0 ∧ b.reset.buf.length = b.buf.length) := by
  refine ⟨fun capacity => ?_, fun b n hwf hn => ?_, by decide, by decide,
    fun b => ⟨?_, rfl⟩⟩
  · simp [Buffer.createEmpty, Buffer.size, Buffer.left]
  · obtain ⟨h1, h2⟩ := hwf
    unfold Buffer.left at hn
    constructor <;> simp [Buffer.push, Buffer.size, Buffer.left] <;> omega
  · simp [Buffer.reset, Buffer.size]

/-- Closed witness for the hypotheses of `createEmpty_advance_rewind`. -/
theorem createEmpty_advance_rewind_witness :
    ((Buffer.createEmpty 16).push 10).size = (Buffer.createEmpty 16).size + 10 ∧
    ((Buffer.createEmpty 16).push 10).left = (Buffer.createEmpty 16).left - 10 :=
  createEmpty_advance_rewind.2.1 (Buffer.createEmpty 16) 10 (by decide) (by decide)

/-- C6: `CreateFromSpan(data, length)` yields a buffer with `size() == length`
whose `length` bytes starting at `readCursor()` equal the input data byte for
byte. -/
theorem createFromSpan_size_rpos (data : List UInt8) :
    (Buffer.createFromSpan data).size = data.length ∧
    (Buffer.createFromSpan data).rposBytes = data := by
  constructor
  · simp [Buffer.createFromSpan, Buffer.size]
  · simp [Buffer.createFromSpan, Buffer.rposBytes, Buffer.rpos, Buffer.size]

/-- C7: under the precondition `n ≤ remaining()`, `advance(n)` preserves the
buffer invariant `begin ≤ tail ≤` physical end of storage: the write cursor
never moves past the end of the backing storage. -/
theorem push_preserves_wf (b : Buffer) (n : Nat) (hwf : b.wf)
    (hn : n ≤ b.left) : (b.push n).wf ∧ (b.push n).tail ≤ b.buf.length := by
  obtain ⟨h1, h2⟩ := hwf
  unfold Buffer.left at hn
  refine ⟨⟨?_, ?_⟩, ?_⟩ <;> simp [Buffer.push, Buffer.wf] <;> omega

/-- Closed witness for the hypotheses of `push_preserves_wf`. -/
theorem push_preserves_wf_witness :
    ((Buffer.createEmpty 16).push 10).wf ∧
    ((Buffer.createEmpty 16).push 10).tail ≤ (Buffer.createEmpty 16).buf.length :=
  push_preserves_wf (Buffer.createEmpty 16) 10 (by decide) (by decide)

/-- C9: for a buffer whose `begin` points at the start of its own storage,
`size() + left()` equals the storage capacity `buf.size()`, and this quantity
is preserved by `push(n)` (under the push precondition) and by `reset()`. -/
theorem size_add_left_invariant (b : Buffer) (hb : b.bufBegin = 0)
    (hwf : b.wf) :
    b.size + b.left = b.buf.length ∧
    (∀ n : Nat, n ≤ b.left →
      (b.push n).size + (b.push n).left = (b.push n).buf.length) ∧
    b.reset.size + b.reset.left = b.reset.buf.length := by
  obtain ⟨h1, h2⟩ := hwf
  refine ⟨?_, fun n hn => ?_, ?_⟩
  · simp [Buffer.size, Buffer.left, hb]
    omega
  · unfold Buffer.left at hn
    simp [Buffer.size, Buffer.left, Buffer.push, hb]
    omega
  · simp [Buffer.size, Buffer.left, Buffer.reset, hb]

/-- Closed witness for the hypotheses of `size_add_left_invariant`. -/
theorem size_add_left_invariant_witness :
    (Buffer.createFromSpan [1, 2, 3]).size + (Buffer.createFromSpan [1, 2, 3]).left
      = (Buffer.createFromSpan [1, 2, 3]).buf.length :=
  (size_add_left_invariant (Buffer.createFromSpan [1, 2, 3]) (by decide)
    (by decide)).1

/-- C10: a buffer created by `CreateFromSpan(data, length)` has
`remaining() == 0` immediately after construction, so any `advance(n)` with
`n > 0` violates the advance precondition `n ≤ remaining()`: it is
write-closed until `rewind()`. -/
theorem createFromSpan_write_closed (data : List UInt8) :
    (Buffer.createFromSpan data).left = 0 ∧
    ∀ n : Nat, 0 < n → ¬ n ≤ (Buffer.createFromSpan data).left := by
  constructor
  · simp [Buffer.createFromSpan, Buffer.left]
  · intro n hn hle
    simp [Buffer.createFromSpan, Buffer.left] at hle
    omega

/-- Closed witness for the hypotheses of `createFromSpan_write_closed`. -/
theorem createFromSpan_write_closed_witness :
    ¬ 1 ≤ (Buffer.createFromSpan [1, 2, 3]).left :=
  (createFromSpan_write_closed [1, 2, 3]).2 1 (by decide)

end ServerBase

namespace ServerBase

lemma KeyRecord.install_downClosed (r : KeyRecord) (l : CryptoLevel)
    (hr : r.downClosed) (hl : r.isNext l = true) : (r.install l).downClosed := by
  rcases r with ⟨a, b, c⟩
  cases l <;> cases a <;> cases b <;> cases c <;>
    simp_all [KeyRecord.install, KeyRecord.isNext, KeyRecord.downClosed]

lemma KeyRecord.installed_not_isNext (r : KeyRecord) (l : CryptoLevel)
    (h : r.installed l = true) : r.isNext l = false := by
  rcases r with ⟨a, b, c⟩
  cases l <;> simp_all [KeyRecord.installed, KeyRecord.isNext]

lemma KeyRecord.isNext_application_not_installed (r : KeyRecord)
    (h : r.isNext .application = true) : r.applicationK = false := by
  rcases r with ⟨a, b, c⟩
  simp_all [KeyRecord.isNext]

lemma KeyRecord.install_applicationK_of_ne (r : KeyRecord) (l : CryptoLevel)
    (hl : l ≠ .application) : (r.install l).applicationK = r.applicationK := by
  cases l <;> simp_all [KeyRecord.install]

lemma Handler.on_rx_key_fst (h : Handler) (l : CryptoLevel) (s : Nat) :
    (h.on_rx_key l s).1 = h ∨
    ((h.on_rx_key l s).1 = { h with rxKeys := (h.rxKeys.install l) } ∧
      h.rxKeys.isNext l = true) := by
  unfold Handler.on_rx_key
  split
  · exact Or.inl rfl
  split
  · exact Or.inl rfl
  split
  · exact Or.inl rfl
  · refine Or.inr ⟨rfl, ?_⟩
    simp_all

lemma Handler.on_tx_key_fst (h : Handler) (l : CryptoLevel) (s : Nat) :
    (h.on_tx_key l s).1 = h ∨
    (h.alertRaised = false ∧ h.txKeys.isNext l = true ∧
      ((l = .application ∧ h.appCbArmed = true ∧
        (h.on_tx_key l s).1 =
          { h with txKeys := (h.txKeys.install l),
                   appCbFires := h.appCbFires + 1, appCbArmed := false }) ∨
       (¬(l = .application ∧ h.appCbArmed = true) ∧
        (h.on_tx_key l s).1 = { h with txKeys := (h.txKeys.install l) }))) := by
  unfold Handler.on_tx_key
  split
  · exact Or.inl rfl
  split
  · exact Or.inl rfl
  split
  · exact Or.inl rfl
  split
  · rename_i h1 h2 h3 h4
    refine Or.inr ⟨by simp_all, by simp_all, Or.inl ⟨?_, ?_, rfl⟩⟩ <;> simp_all
  · rename_i h1 h2 h3 h4
    refine Or.inr ⟨by simp_all, by simp_all, Or.inr ⟨?_, rfl⟩⟩
    simp_all

lemma Handler.stage_fst (h : Handler) (l : CryptoLevel) (d : List UInt8) :
    (h.write_server_handshake l d).1 = h ∨
    (h.write_server_handshake l d).1 =
      { h with staged := (fun x =>
                 if x = l then h.staged x ++ d else h.staged x) } := by
  unfold Handler.write_server_handshake
  split
  · exact Or.inl rfl
  · exact Or.inr rfl

lemma Handler.on_rx_key_closed (h : Handler) (l : CryptoLevel) (s : Nat)
    (hc : h.alertRaised = true) :
    h.on_rx_key l s = (h, some .handlerClosed) := by
  unfold Handler.on_rx_key
  simp [hc]

lemma Handler.on_tx_key_closed (h : Handler) (l : CryptoLevel) (s : Nat)
    (hc : h.alertRaised = true) :
    h.on_tx_key l s = (h, some .handlerClosed) := by
  unfold Handler.on_tx_key
  simp [hc]

lemma Handler.stage_closed (h : Handler) (l : CryptoLevel) (d : List UInt8)
    (hc : h.alertRaised = true) :
    h.write_server_handshake l d = (h, some .handlerClosed) := by
  unfold Handler.write_server_handshake
  simp [hc]

lemma Handler.stage_active (h : Handler) (l : CryptoLevel) (d : List UInt8)
    (hact : h.alertRaised = false) :
    h.write_server_handshake l d =
      ({ h with staged := (fun x =>
                  if x = l then h.staged x ++ d else h.staged x) }, none) := by
  unfold Handler.write_server_handshake
  simp [hact]

lemma Handler.on_rx_key_not_next (h : Handler) (l : CryptoLevel) (s : Nat)
    (hact : h.alertRaised = false) (hn : h.rxKeys.isNext l = false) :
    h.on_rx_key l s = (h, some .outOfOrderKeyInstall) := by
  unfold Handler.on_rx_key
  simp [hact, hn]

lemma Handler.on_tx_key_not_next (h : Handler) (l : CryptoLevel) (s : Nat)
    (hact : h.alertRaised = false) (hn : h.txKeys.isNext l = false) :
    h.on_tx_key l s = (h, some .outOfOrderKeyInstall) := by
  unfold Handler.on_tx_key
  simp [hact, hn]

/-- Whether an operation is a `set_tls_alert` call. -/
def Handler.HOp.isAlert : Handler.HOp → Bool
  | .alert _ => true
  | _ => false

/-- A property of handler states preserved by every step is preserved by every
run. -/
lemma Handler.run_preserved (P : Handler → Prop)
    (hstep : ∀ (h : Handler) (op : Handler.HOp), P h → P (h.step op))
    (h : Handler) (ops : List Handler.HOp) (hp : P h) :
    P (Handler.run h ops) := by
  induction ops generalizing h with
  | nil => exact hp
  | cons op ops ih =>
      simp only [Handler.run, List.foldl]
      exact ih _ (hstep _ _ hp)

/-- After a fatal alert, every non-alert operation leaves the state
untouched. -/
lemma Handler.run_closed (h : Handler) (hc : h.alertRaised = true)
    (ops : List Handler.HOp) (hops : ∀ op ∈ ops, op.isAlert = false) :
    Handler.run h ops = h := by
  induction ops with
  | nil => rfl
  | cons op ops ih =>
      have hstep : h.step op = h := by
        cases op with
        | rxKey l s => simp [Handler.step, Handler.on_rx_key_closed h l s hc]
        | txKey l s => simp [Handler.step, Handler.on_tx_key_closed h l s hc]
        | stage l d => simp [Handler.step, Handler.stage_closed h l d hc]
        | alert c =>
            have := hops (.alert c) (by simp)
            simp [Handler.HOp.isAlert] at this
      simp only [Handler.run, List.foldl, hstep]
      exact ih fun op hop => hops op (by simp [hop])

/-- Both per-direction installed-level records are down-closed segments of the
level order. -/
def Handler.KeyInv (h : Handler) : Prop :=
  h.rxKeys.downClosed ∧ h.txKeys.downClosed

lemma Handler.step_keyInv (h : Handler) (op : Handler.HOp)
    (hi : h.KeyInv) : (h.step op).KeyInv := by
  obtain ⟨hr, ht⟩ := hi
  cases op with
  | rxKey l s =>
      rcases Handler.on_rx_key_fst h l s with he | ⟨he, hn⟩
      · simp only [Handler.step]
        rw [he]
        exact ⟨hr, ht⟩
      · simp only [Handler.step]
        rw [he]
        exact ⟨KeyRecord.install_downClosed _ _ hr hn, ht⟩
  | txKey l s =>
      rcases Handler.on_tx_key_fst h l s with he | ⟨-, hn, hbr⟩
      · simp only [Handler.step]
        rw [he]
        exact ⟨hr, ht⟩
      · rcases hbr with ⟨hl, harm, he⟩ | ⟨hnot, he⟩ <;>
          · simp only [Handler.step]
            rw [he]
            exact ⟨hr, KeyRecord.install_downClosed _ _ ht hn⟩
  | stage l d =>
      rcases Handler.stage_fst h l d with he | he <;>
        · simp only [Handler.step]
          rw [he]
          exact ⟨hr, ht⟩
  | alert c => exact ⟨hr, ht⟩

/-- The one-shot callback bookkeeping: the number of callback invocations is 1
exactly when Application transmit keys are installed, and the trigger is armed
exactly while they are not. -/
def Handler.CbInv (h : Handler) : Prop :=
  h.appCbFires = (if h.txKeys.applicationK then 1 else 0) ∧
  h.appCbArmed = !h.txKeys.applicationK

lemma Handler.step_cbInv (h : Handler) (op : Handler.HOp)
    (hc : h.CbInv) : (h.step op).CbInv := by
  obtain ⟨hf, ha⟩ := hc
  cases op with
  | rxKey l s =>
      rcases Handler.on_rx_key_fst h l s with he | ⟨he, -⟩ <;>
        · simp only [Handler.step]
          rw [he]
          exact ⟨hf, ha⟩
  | txKey l s =>
      rcases Handler.on_tx_key_fst h l s with he | ⟨-, hn, hbr⟩
      · simp only [Handler.step]
        rw [he]
        exact ⟨hf, ha⟩
      · rcases hbr with ⟨hl, harm, he⟩ | ⟨hnot, he⟩
        · subst hl
          have happ := KeyRecord.isNext_application_not_installed _ hn
          simp only [Handler.step]
          rw [he]
          constructor
          · simp only [KeyRecord.install]
            rw [hf, happ]
            simp
          · simp [KeyRecord.install]
        · by_cases hl : l = .application
          · subst hl
            have happ := KeyRecord.isNext_application_not_installed _ hn
            rw [happ] at ha
            simp at ha
            exact absurd ⟨rfl, ha⟩ hnot
          · simp only [Handler.step]
            rw [he]
            constructor
            · rw [hf, KeyRecord.install_applicationK_of_ne _ _ hl]
            · rw [ha, KeyRecord.install_applicationK_of_ne _ _ hl]
  | stage l d =>
      rcases Handler.stage_fst h l d with he | he <;>
        · simp only [Handler.step]
          rw [he]
          exact ⟨hf, ha⟩
  | alert c => exact ⟨hf, ha⟩

end ServerBase

namespace ServerBase

/-- C1: for each direction independently, `on_rx_key` / `on_tx_key` succeed
only when the given crypto level is the next not-yet-installed level in the
fixed order Initial, Handshake, Application; an out-of-order level fails with
`OutOfOrderKeyInstall`; installing in order (with a valid secret length)
succeeds; and in every reachable handler state the set of installed levels per
direction is a down-closed segment of that order. -/
theorem installs_follow_level_order (h : Handler) (level : CryptoLevel)
    (slen : Nat) (hact : h.alertRaised = false) :
    ((h.on_rx_key level slen).2 = none → h.rxKeys.isNext level = true) ∧
    (h.rxKeys.isNext level = false →
      (h.on_rx_key level slen).2 = some .outOfOrderKeyInstall) ∧
    (h.rxKeys.isNext level = true → slen = h.expectedSecretLen →
      (h.on_rx_key level slen).2 = none) ∧
    ((h.on_tx_key level slen).2 = none → h.txKeys.isNext level = true) ∧
    (h.txKeys.isNext level = false →
      (h.on_tx_key level slen).2 = some .outOfOrderKeyInstall) ∧
    (h.txKeys.isNext level = true → slen = h.expectedSecretLen →
      (h.on_tx_key level slen).2 = none) ∧
    (∀ (slen0 : Nat) (ops : List Handler.HOp),
      (Handler.run (Handler.mk0 slen0) ops).rxKeys.downClosed ∧
      (Handler.run (Handler.mk0 slen0) ops).txKeys.downClosed) := by
  refine ⟨?_, ?_, ?_, ?_, ?_, ?_, ?_⟩
  · intro hs
    by_contra hn
    rw [Bool.not_eq_true] at hn
    rw [Handler.on_rx_key_not_next h level slen hact hn] at hs
    simp at hs
  · intro hn
    rw [Handler.on_rx_key_not_next h level slen hact hn]
  · intro hn hl
    unfold Handler.on_rx_key
    simp [hact, hn, hl]
  · intro hs
    by_contra hn
    rw [Bool.not_eq_true] at hn
    rw [Handler.on_tx_key_not_next h level slen hact hn] at hs
    simp at hs
  · intro hn
    rw [Handler.on_tx_key_not_next h level slen hact hn]
  · intro hn hl
    unfold Handler.on_tx_key
    simp only [hact, hn, hl]
    simp
    split <;> rfl
  · intro slen0 ops
    refine Handler.run_preserved Handler.KeyInv Handler.step_keyInv _ ops ?_
    constructor <;> constructor <;> intro hx <;>
      simp [Handler.mk0, KeyRecord.empty] at hx

/-- Closed witness for the hypotheses of `installs_follow_level_order`:
installing the Handshake receive key first, out of order, fails. -/
theorem installs_follow_level_order_witness :
    ((Handler.mk0 32).on_rx_key .handshake 32).2 =
      some .outOfOrderKeyInstall :=
  (installs_follow_level_order (Handler.mk0 32) .handshake 32 rfl).2.1 rfl

/-- C2: after `set_tls_alert code`, every subsequent install or stage call
fails with `HandlerClosed`, and the last error remains `CryptoAlert(code)`
across any sequence of further non-alert operations; the alert is recorded,
not thrown. -/
theorem alert_closes_handler (h : Handler) (code : Nat)
    (ops : List Handler.HOp) (hops : ∀ op ∈ ops, op.isAlert = false) :
    (Handler.run (h.set_tls_alert code) ops).lastError = .cryptoAlert code ∧
    (∀ (level : CryptoLevel) (slen : Nat),
      ((Handler.run (h.set_tls_alert code) ops).on_rx_key level slen).2 =
        some .handlerClosed) ∧
    (∀ (level : CryptoLevel) (slen : Nat),
      ((Handler.run (h.set_tls_alert code) ops).on_tx_key level slen).2 =
        some .handlerClosed) ∧
    (∀ (level : CryptoLevel) (data : List UInt8),
      ((Handler.run (h.set_tls_alert code) ops).write_server_handshake level
        data).2 = some .handlerClosed) := by
  have hrun : Handler.run (h.set_tls_alert code) ops = h.set_tls_alert code :=
    Handler.run_closed _ rfl ops hops
  rw [hrun]
  refine ⟨rfl, fun level slen => ?_, fun level slen => ?_, fun level d => ?_⟩
  · rw [Handler.on_rx_key_closed _ _ _ rfl]
  · rw [Handler.on_tx_key_closed _ _ _ rfl]
  · rw [Handler.stage_closed _ _ _ rfl]

/-- Closed witness for the hypotheses of `alert_closes_handler`. -/
theorem alert_closes_handler_witness :
    (Handler.run ((Handler.mk0 32).set_tls_alert 70)
      [Handler.HOp.rxKey .initial 32]).lastError = .cryptoAlert 70 :=
  (alert_closes_handler (Handler.mk0 32) 70 [Handler.HOp.rxKey .initial 32]
    (by
      intro op hop
      rw [List.mem_singleton] at hop
      subst hop
      rfl)).1

/-- C3: across the whole lifetime of a handler, the registered
application-key-ready callback is invoked at most once, and it has fired
exactly once precisely when the Application-level transmit key has been
installed; no sequence of calls can make it fire a second time. -/
theorem application_cb_fires_once (slen : Nat) (ops : List Handler.HOp) :
    (Handler.run (Handler.mk0 slen) ops).appCbFires ≤ 1 ∧
    ((Handler.run (Handler.mk0 slen) ops).appCbFires = 1 ↔
      (Handler.run (Handler.mk0 slen) ops).txKeys.applicationK = true) := by
  have hinv : (Handler.run (Handler.mk0 slen) ops).CbInv :=
    Handler.run_preserved Handler.CbInv Handler.step_cbInv _ ops ⟨rfl, rfl⟩
  obtain ⟨hf, -⟩ := hinv
  rw [hf]
  cases hc : (Handler.run (Handler.mk0 slen) ops).txKeys.applicationK <;>
    simp [hc]

/-- C4: a second install for a level whose keys in that direction are already
installed fails: key installation occurs at most once per (level, direction)
pair. -/
theorem duplicate_install_fails (h : Handler) (level : CryptoLevel)
    (slen : Nat) :
    (h.rxKeys.installed level = true →
      ((h.on_rx_key level slen).2).isSome = true) ∧
    (h.txKeys.installed level = true →
      ((h.on_tx_key level slen).2).isSome = true) := by
  constructor
  · intro hi
    cases hc : h.alertRaised
    · rw [Handler.on_rx_key_not_next h level slen hc
        (KeyRecord.installed_not_isNext _ _ hi)]
      rfl
    · rw [Handler.on_rx_key_closed h level slen hc]
      rfl
  · intro hi
    cases hc : h.alertRaised
    · rw [Handler.on_tx_key_not_next h level slen hc
        (KeyRecord.installed_not_isNext _ _ hi)]
      rfl
    · rw [Handler.on_tx_key_closed h level slen hc]
      rfl

/-- Closed witness for the hypotheses of `duplicate_install_fails`: a second
Initial receive-key install fails. -/
theorem duplicate_install_fails_witness :
    (((((Handler.mk0 32).on_rx_key .initial 32).1).on_rx_key
      .initial 32).2).isSome = true :=
  (duplicate_install_fails (((Handler.mk0 32).on_rx_key .initial 32).1)
    .initial 32).1 rfl

lemma Handler.run_stage_seq (h : Handler) (level : CryptoLevel)
    (ds : List (List UInt8)) (hact : h.alertRaised = false) :
    (Handler.run h (ds.map (Handler.HOp.stage level))).staged level =
      h.staged level ++ ds.flatten := by
  induction ds generalizing h with
  | nil => simp [Handler.run]
  | cons d ds ih =>
      have hs := Handler.stage_active h level d hact
      have hstep : h.step (.stage level d) =
          { h with staged := (fun x =>
              if x = level then h.staged x ++ d else h.staged x) } := by
        simp [Handler.step, hs]
      have hrec := ih ({ h with staged := (fun x =>
          if x = level then h.staged x ++ d else h.staged x) }) hact
      simp only [List.map, Handler.run, List.foldl] at hrec ⊢
      rw [hstep, hrec]
      simp

/-- C8: `write_server_handshake` appends the given bytes to the staging buffer
for that level: a single call succeeds and appends everything, and a sequence
of calls at a level leaves the buffer holding the concatenation of the staged
byte runs in call order — no staged byte is silently dropped. -/
theorem stage_appends_in_order (h : Handler) (level : CryptoLevel)
    (d : List UInt8) (ds : List (List UInt8)) (hact : h.alertRaised = false) :
    (h.write_server_handshake level d).2 = none ∧
    (h.write_server_handshake level d).1.staged level = h.staged level ++ d ∧
    (Handler.run h (ds.map (Handler.HOp.stage level))).staged level =
      h.staged level ++ ds.flatten := by
  have hs := Handler.stage_active h level d hact
  refine ⟨by rw [hs], ?_, Handler.run_stage_seq h level ds hact⟩
  rw [hs]
  simp

/-- Closed witness for the hypotheses of `stage_appends_in_order`. -/
theorem stage_appends_in_order_witness :
    ((Handler.mk0 32).write_server_handshake .initial [1, 2]).2 = none :=
  (stage_appends_in_order (Handler.mk0 32) .initial [1, 2]
    [[1], [2, 3]] rfl).1

end ServerBase
